import Mathlib

/-!
# LiftBall: timestamp-driven file synchronisation

A shallow embedding of `LiftBallServer.go` (namespace `Server`) and `LiftBall.go`
(namespace `Client`), followed by theorems about the reconciliation pass, the
file store and the error policy.

Modelling conventions.

* `time.Time` is an integer instant in nanoseconds counted from Go's zero `time.Time`,
  so the zero value of a `Timestamp` field is `0`; `Before` is `<` and `Equal` is `=`.
* A store directory is `some` dictionary from file names to regular files, kept in name
  order (the order `ioutil.ReadDir` lists them in), or `none` once the directory itself
  has been removed.  It holds regular files only, under plain names (`plainName`).
  Reading succeeds exactly for the names the dictionary holds.  Writing succeeds
  exactly for a plain name in a directory that exists.  Removing succeeds for a name
  the dictionary holds and for a name that denotes the directory itself while it is
  empty.  A name with a path separator is treated as a path that does not resolve:
  what lies outside the store directory (paths through `..`), other spellings of an
  entry (`./a`), permissions and device errors are not modelled.
* `os.Chtimes` is the documented one: a zero `time.Time` leaves the file time as it
  is, any other time goes through `UnixNano`, an `int64` that wraps around.  What the
  file system then records for the requested time (it may clamp it to the range it
  supports) is the server state's function `fsTime`.
* The wall clock is an oracle `clock : Nat → Time`; every reading consumes one tick.
* A function returns `none` where the Go code panics (an `ABORT` in `handleError` or
  a method call on the nil `os.FileInfo` that a failed `os.Stat` returns).
* What is written to the connection is appended to the field `sent`; what
  `handleError` prints is appended to `log` (server) or `convstring` (client text area).
  The `testing` trace output is not recorded.
* One connection is handled at a time: the mutex and the interleaving of several
  connections are outside the model.
-/

namespace LiftBall

/-- Instants of `time.Time`, relative to Go's zero time. -/
abbrev Time := Int

/-- Content of a file, `[]byte`; a nil slice is the empty list. -/
abbrev Bytes := List Nat

/-- Finite map keyed by strings, as an association list. -/
abbrev Dict (α : Type) := List (String × α)

namespace Dict

/-- Value stored under `k`, if any. -/
def get {α : Type} (d : Dict α) (k : String) : Option α :=
  match d with
  | [] => none
  | (m, v) :: rest => if k = m then some v else get rest k

/-- Store `v` under `k`, replacing a previous value, keeping name order. -/
def set {α : Type} (d : Dict α) (k : String) (v : α) : Dict α :=
  match d with
  | [] => [(k, v)]
  | (m, w) :: rest =>
    if k = m then (k, v) :: rest
    else if k < m then (k, v) :: (m, w) :: rest
    else (m, w) :: set rest k v

/-- Remove every binding of `k`. -/
def erase {α : Type} (d : Dict α) (k : String) : Dict α :=
  match d with
  | [] => []
  | (m, w) :: rest => if k = m then erase rest k else (m, w) :: erase rest k

/-- Keys strictly increasing: the shape of a directory listing. -/
def Sorted {α : Type} (d : Dict α) : Prop :=
  List.Pairwise (fun a b => a.1 < b.1) d

end Dict

/-- A regular file on disk: its bytes and its modification time. -/
structure DiskFile where
  content : Bytes
  modTime : Time
deriving DecidableEq, Repr

/-- The Go struct `FileInfo` ("all file info"), fields at their zero values by default. -/
structure FileInfo where
  FileName : String := ""
  Filesize : Int := 0
  File : Bytes := []
  Timestamp : Time := 0
deriving DecidableEq, Repr

/-- The Go struct `Message` ("message sent between computers"). -/
structure Message where
  Kind : String := ""
  Files : List FileInfo := []
  File : FileInfo := {}
  IP : String := ""
  When : Time := 0
deriving DecidableEq, Repr

/-- A name that can name an entry of a directory: not empty, not `.` or `..`, without
path separator or NUL, at most 255 bytes long. -/
def plainName (name : String) : Bool :=
  name != "" && name != "." && name != ".." &&
    name.toList.all (fun c => c != '/' && c != Char.ofNat 0) &&
    decide (name.utf8ByteSize ≤ 255)

/-- A name whose path, appended to the directory's, is the directory itself: the empty
name, or nothing but separators. -/
def denotesRoot (name : String) : Bool :=
  name.toList.all (fun c => c == '/')

/-- Nanoseconds from Go's zero time (1 January of year 1, UTC) to the Unix epoch. -/
def unixEpoch : Int := 62135596800 * 1000000000

/-- Result of `Time.UnixNano`: nanoseconds since the Unix epoch as an `int64`, wrapping
around outside its range. -/
def unixNano (t : Time) : Int :=
  (t - unixEpoch + 2 ^ 63) % 2 ^ 64 - 2 ^ 63

/-- A store directory: its files by name, or `none` once the directory is removed. -/
abbrev Store := Option (Dict DiskFile)

/-- The files of a store directory; a removed directory has none. -/
def Store.files (store : Store) : Dict DiskFile :=
  match store with
  | some d => d
  | none => []

/-- Result of `ioutil.ReadDir`: the entries in name order and whether an error was
returned. -/
def readDir (store : Store) : Dict DiskFile × Bool :=
  match store with
  | some d => (d, false)
  | none => ([], true)

/-- Result of `ioutil.ReadFile`: the bytes read and whether an error was returned. -/
def readFile (dir : Dict DiskFile) (name : String) : Bytes × Bool :=
  match dir.get name with
  | some f => (f.content, false)
  | none => ([], true)

/-- Result of `os.Stat`: the file's metadata, or `none` for the nil `os.FileInfo`
returned together with an error. -/
def osStat (dir : Dict DiskFile) (name : String) : Option DiskFile :=
  dir.get name

/-- Effect of `ioutil.WriteFile` at wall-clock time `now`: the directory afterwards and
whether an error was returned.  The write fails in a directory that has been removed
and for a name that is not plain (the path is the directory itself, or runs through a
directory that is not there). -/
def writeFile (store : Store) (name : String) (data : Bytes) (now : Time) : Store × Bool :=
  match store with
  | none => (none, true)
  | some d =>
    if plainName name then (some (d.set name { content := data, modTime := now }), false)
    else (some d, true)

/-- Effect of `os.Chtimes` on the files of the directory (the caller drops its error).
A zero time leaves the file time as it is; any other time is converted with `UnixNano`,
and the file gets the instant the file system records for that `int64`; `record` maps
the nanoseconds requested to the nanoseconds recorded. -/
def osChtimes (record : Int → Int) (store : Store) (name : String) (t : Time) : Store :=
  match store with
  | none => none
  | some d =>
    match d.get name with
    | some f =>
      if t = 0 then some d
      else some (d.set name { f with modTime := unixEpoch + record (unixNano t) })
    | none => some d

/-- Effect of `os.Remove`: the directory afterwards and whether an error was returned.
A name the directory holds is unlinked.  A name that denotes the directory itself
removes the directory if it is empty.  Anything else is an error and changes nothing. -/
def osRemove (store : Store) (name : String) : Store × Bool :=
  match store with
  | none => (none, true)
  | some d =>
    match d.get name with
    | some _ => (some (d.erase name), false)
    | none =>
      if denotesRoot name && d.isEmpty then (none, false)
      else (some d, true)

/-! ## The server, `LiftBallServer.go` -/

namespace Server

/-- State the server code reads and writes while it serves one connection. -/
structure State where
  /-- the directory `LiftBallBackup/` -/
  store : Store
  /-- regular files of the working directory, by name -/
  cwd : Dict Bytes
  /-- the global map `userLastAccess` -/
  userLastAccess : Dict Time
  /-- wall clock oracle and the number of readings taken -/
  clock : Nat → Time
  tick : Nat
  /-- nanoseconds since the Unix epoch that the store's file system records when it is
  asked to set a file time -/
  fsTime : Int → Int
  /-- envelopes encoded on the connection, oldest first -/
  sent : List Message
  /-- lines printed by `handleError` -/
  log : List String

/-- Files under `LiftBallBackup/`, by name. -/
def State.fs (s : State) : Dict DiskFile :=
  s.store.files

/-- The Go function `handleError`: `none` is the panic of action `ABORT`. -/
def handleError (err : Bool) (action : String) (place : String) (s : State) : Option State :=
  if err then
    if action = "ABORT" then none
    else if action = "PRINT" then
      some { s with log := s.log ++ ["something went wrong in " ++ place] }
    else some s
  else some s

/-- The Go function `createMessage` of the server (it leaves `When` at its zero value). -/
def createMessage (Kind : String) (IP : String) (files : List FileInfo) (file : FileInfo) :
    Message :=
  { Kind := Kind, IP := IP, Files := files, File := file }

/-- The Go method `sendMessage`: encode the message on the connection. -/
def sendMessage (msg : Message) (s : State) : State :=
  { s with sent := s.sent ++ [msg] }

/-- The Go function `getAllFiles`.  The content of each descriptor is read with
`ioutil.ReadFile(value.Name())`, a path relative to the working directory, and the
error of that read is dropped. -/
def getAllFiles (s : State) : Option (List FileInfo × State) :=
  let r := readDir s.store
  let files := r.1.map fun value =>
    { File := (match s.cwd.get value.1 with | some b => b | none => []),
      FileName := value.1,
      Filesize := (value.2.content.length : Int),
      Timestamp := value.2.modTime : FileInfo }
  (handleError r.2 "PRINT" "getAllFiles" s).map fun s1 => (files, s1)

/-- The Go function `getFile`.  `fileStat.Size()` is called on whatever `os.Stat`
returned, before the read error is looked at. -/
def getFile (fileName : String) (s : State) : Option (FileInfo × State) :=
  let r := readFile s.fs fileName
  match osStat s.fs fileName with
  | none => none
  | some fileStat =>
    let file : FileInfo :=
      { File := r.1, FileName := fileName,
        Filesize := (fileStat.content.length : Int), Timestamp := fileStat.modTime }
    (handleError r.2 "PRINT" ("getFile " ++ fileName) s).map fun s1 => (file, s1)

/-- The Go function `storeFile` of the server: write, then force the modification time
to the descriptor's `Timestamp`. -/
def storeFile (file : FileInfo) (s : State) : Option State :=
  let w := writeFile s.store file.FileName file.File (s.clock s.tick)
  let c := osChtimes s.fsTime w.1 file.FileName file.Timestamp
  handleError w.2 "PRINT" ("storeFile " ++ file.FileName)
    { s with store := c, tick := s.tick + 1 }

/-- The Go function `deleteFile` of the server. -/
def deleteFile (fileName : String) (s : State) : Option State :=
  let r := osRemove s.store fileName
  handleError r.2 "PRINT" ("deleteFile " ++ fileName) { s with store := r.1 }

/-- The Go function `doesFileExist`: the file can be read. -/
def doesFileExist (fileName : String) (s : State) : Bool :=
  !(readFile s.fs fileName).2

/-- The Go function `serverLastChanged`: `1` if the server's copy is the later one, `0`
if the times are equal, `-1` otherwise.  `file.ModTime()` is called on whatever
`os.Stat` returned. -/
def serverLastChanged (fileName : String) (timeStamp : Time) (s : State) :
    Option (Int × State) :=
  match osStat s.fs fileName with
  | none =>
    -- handleError prints, then the nil `file` is dereferenced
    (handleError true "PRINT" "serverLastChanged" s).bind fun _ => none
  | some file =>
    (handleError false "PRINT" "serverLastChanged" s).map fun s1 =>
      if timeStamp < file.modTime then (1, s1)
      else if timeStamp = file.modTime then (0, s1)
      else (-1, s1)

/-- Body of the `for _, value := range files` loop of `syncFiles`, iterated over the
inventory.  `newMessage` is the loop-carried variable; it is sent at the end of every
iteration, whether or not a branch assigned it. -/
def syncLoop (ip : String) : List FileInfo → Message → State → Option State
  | [], _, s => some s
  | value :: rest, newMessage, s =>
    if doesFileExist value.FileName s then
      match serverLastChanged value.FileName value.Timestamp s with
      | none => none
      | some (c1, s1) =>
        if c1 > 0 then
          match getFile value.FileName s1 with
          | none => none
          | some (fileContent, s2) =>
            let file : FileInfo := { FileName := value.FileName, File := fileContent.File }
            let newMessage := createMessage "STORE" "" [] file
            syncLoop ip rest newMessage (sendMessage newMessage s2)
        else
          match serverLastChanged value.FileName value.Timestamp s1 with
          | none => none
          | some (c2, s2) =>
            if c2 < 0 then
              let file : FileInfo := { FileName := value.FileName }
              let newMessage := createMessage "GETFILE" "" [] file
              syncLoop ip rest newMessage (sendMessage newMessage s2)
            else
              syncLoop ip rest newMessage (sendMessage newMessage s2)
    else
      match s.userLastAccess.get ip with
      | none =>
        let file : FileInfo := { FileName := value.FileName }
        let newMessage := createMessage "GETFILE" "" [] file
        syncLoop ip rest newMessage (sendMessage newMessage s)
      | some access =>
        if access < value.Timestamp then
          let file : FileInfo := { FileName := value.FileName }
          let newMessage := createMessage "GETFILE" "" [] file
          syncLoop ip rest newMessage (sendMessage newMessage s)
        else
          let file : FileInfo := { FileName := value.FileName }
          let newMessage := createMessage "DELETE" "" [] file
          syncLoop ip rest newMessage (sendMessage newMessage s)

/-- The Go function `syncFiles` of the server.  The inventory is listed twice: once for
the line that is logged (the line itself is not recorded), once for the `SYNC` that is
sent. -/
def syncFiles (msg : Message) (s : State) : Option State :=
  match syncLoop msg.IP msg.Files {} s with
  | none => none
  | some s1 =>
    match getAllFiles s1 with
    | none => none
    | some (_, s2) =>
      match getAllFiles s2 with
      | none => none
      | some (files, s3) =>
        let s4 := sendMessage (createMessage "SYNC" "" files {}) s3
        some { s4 with userLastAccess := s4.userLastAccess.set msg.IP msg.When }

/-- The Go method `Message.handle`: dispatch one decoded envelope by kind. -/
def handle (msg : Message) (s : State) : Option State :=
  if msg.Kind = "SYNC" then syncFiles msg s
  else if msg.Kind = "LIST" then
    match getAllFiles s with
    | none => none
    | some (files, s1) => some (sendMessage (createMessage "LIST" "" files {}) s1)
  else if msg.Kind = "GETFILE" then
    match getFile msg.File.FileName s with
    | none => none
    | some (file, s1) => some (sendMessage (createMessage "STORE" "" [] file) s1)
  else if msg.Kind = "STORE" then storeFile msg.File s
  else if msg.Kind = "DELETE" then deleteFile msg.File.FileName s
  else some s

/-- The Go function `manageConnections`, run over the envelopes decoded from the
connection: each is handled in arrival order; the result is the state when the decoder
blocks for the next one, `none` if a handler panicked. -/
def manageConnections : List Message → State → Option State
  | [], s => some s
  | msg :: rest, s =>
    match handle msg s with
    | none => none
    | some s1 => manageConnections rest s1

end Server

/-! ## The client, `LiftBall.go` -/

namespace Client

/-- State the client code reads and writes. -/
structure State where
  /-- the directory `LiftBall/` -/
  store : Store
  /-- the global `lastSync` -/
  lastSync : Time
  /-- wall clock oracle and the number of readings taken -/
  clock : Nat → Time
  tick : Nat
  /-- envelopes encoded on the connection, oldest first -/
  sent : List Message
  /-- the text area `ctrl.convstring` -/
  convstring : String
  /-- the inventory last handed to `ctrl.updateList` (its rendering is not modelled) -/
  filelist : List FileInfo

/-- Files under `LiftBall/`, by name. -/
def State.fs (s : State) : Dict DiskFile :=
  s.store.files

/-- The Go method `Control.updateText`. -/
def updateText (toAdd : String) (s : State) : State :=
  { s with convstring := s.convstring ++ toAdd ++ "\n" }

/-- The Go method `Control.updateList`. -/
def updateList (list : List FileInfo) (s : State) : State :=
  { s with filelist := list }

/-- The call `time.Now()`: the current reading of the clock. -/
def timeNow (s : State) : Time × State :=
  (s.clock s.tick, { s with tick := s.tick + 1 })

/-- The call `enc.Encode(msg)`. -/
def encode (msg : Message) (s : State) : State :=
  { s with sent := s.sent ++ [msg] }

/-- The Go function `handleError` of the client: `none` is the panic of action `ABORT`. -/
def handleError (err : Bool) (action : String) (place : String) (s : State) : Option State :=
  if err then
    if action = "ABORT" then none
    else if action = "PRINT" then some (updateText ("something went wrong in " ++ place) s)
    else some s
  else some s

/-- The Go function `createMessage` of the client. -/
def createMessage (Kind : String) (IP : String) (files : List FileInfo) (file : FileInfo)
    (t : Time) : Message :=
  { Kind := Kind, IP := IP, Files := files, File := file, When := t }

/-- The Go function `doesFileExist` of the client. -/
def doesFileExist (fileName : String) (s : State) : Bool :=
  !(readFile s.fs fileName).2

/-- The Go function `getFile` of the client. -/
def getFile (fileName : String) (s : State) : Option (FileInfo × State) :=
  let r := readFile s.fs fileName
  match osStat s.fs fileName with
  | none => none
  | some fileStat =>
    let file : FileInfo :=
      { File := r.1, FileName := fileName,
        Filesize := (fileStat.content.length : Int), Timestamp := fileStat.modTime }
    (handleError r.2 "PRINT" "getFile" s).map fun s1 => (file, s1)

/-- The Go function `storeFile` of the client: it takes a name and the bytes, and writes
them; the modification time is the one the write gives the file. -/
def storeFile (fileName : String) (file : Bytes) (s : State) : Option State :=
  let w := writeFile s.store fileName file (s.clock s.tick)
  handleError w.2 "PRINT" "storeFile" { s with store := w.1, tick := s.tick + 1 }

/-- The Go function `deleteFile` of the client. -/
def deleteFile (fileName : String) (s : State) : Option State :=
  let r := osRemove s.store fileName
  handleError r.2 "PRINT" "deleteFile" { s with store := r.1 }

/-- The `for _, value := range files` loop of the client's `syncFiles`. -/
def syncLoop : List FileInfo → State → State
  | [], s => s
  | value :: rest, s =>
    if !doesFileExist value.FileName s then
      if s.lastSync < value.Timestamp then
        let file : FileInfo := { FileName := value.FileName }
        let t := timeNow s
        let newMessage := createMessage "GETFILE" "" [] file t.1
        syncLoop rest (encode newMessage t.2)
      else
        let file : FileInfo := { FileName := value.FileName }
        let t := timeNow s
        let newMessage := createMessage "DELETE" "" [] file t.1
        syncLoop rest (encode newMessage t.2)
    else syncLoop rest s

/-- The Go function `syncFiles` of the client. -/
def syncFiles (msg : Message) (s : State) : State :=
  let s1 := syncLoop msg.Files s
  let t := timeNow s1
  { t.2 with lastSync := t.1 }

/-- Body of the `for` loop of `receive`, for one envelope that decoded without error. -/
def receiveStep (msg : Message) (s : State) : Option State :=
  if msg.Kind = "SYNC" then some (syncFiles msg s)
  else if msg.Kind = "LIST" then some (updateList msg.Files s)
  else if msg.Kind = "GETFILE" then
    let s1 := updateText ("server has requested " ++ msg.File.FileName ++ " from this client") s
    match getFile msg.File.FileName s1 with
    | none => none
    | some (fileInfo, s2) =>
      let t := timeNow s2
      some (encode (createMessage "STORE" "" [] fileInfo t.1) t.2)
  else if msg.Kind = "STORE" then
    storeFile msg.File.FileName msg.File.File (updateText ("storing " ++ msg.File.FileName) s)
  else if msg.Kind = "DELETE" then
    deleteFile msg.File.FileName (updateText ("deleting " ++ msg.File.FileName) s)
  else some s

/-- The Go function `receive`, run over the envelopes decoded from the connection: the
state when the decoder blocks for the next one, `none` if a handler panicked. -/
def receive : List Message → State → Option State
  | [], s => some s
  | msg :: rest, s =>
    match receiveStep msg s with
    | none => none
    | some s1 => receive rest s1

end Client

/-! ## Auxiliary definitions for the proofs -/

namespace Server

/-- Value of `newMessage` at the end of one iteration of the server loop, as a function
of the directory, the watermark map and the value it had at the start. -/
def stepMessage (fs : Dict DiskFile) (wm : Dict Time) (ip : String) (value : FileInfo)
    (prev : Message) : Message :=
  match fs.get value.FileName with
  | some f =>
    if value.Timestamp < f.modTime then
      createMessage "STORE" "" [] { FileName := value.FileName, File := f.content }
    else if f.modTime < value.Timestamp then
      createMessage "GETFILE" "" [] { FileName := value.FileName }
    else prev
  | none =>
    match wm.get ip with
    | none => createMessage "GETFILE" "" [] { FileName := value.FileName }
    | some access =>
      if access < value.Timestamp then
        createMessage "GETFILE" "" [] { FileName := value.FileName }
      else createMessage "DELETE" "" [] { FileName := value.FileName }

/-- Envelopes written by the server loop, one per inventory entry. -/
def loopTrace (fs : Dict DiskFile) (wm : Dict Time) (ip : String) :
    List FileInfo → Message → List Message
  | [], _ => []
  | value :: rest, prev =>
    stepMessage fs wm ip value prev :: loopTrace fs wm ip rest (stepMessage fs wm ip value prev)

/-- Inventory descriptor of one directory entry, as `getAllFiles` builds it. -/
def describe (cwd : Dict Bytes) (value : String × DiskFile) : FileInfo :=
  { File := (match cwd.get value.1 with | some b => b | none => []),
    FileName := value.1,
    Filesize := (value.2.content.length : Int),
    Timestamp := value.2.modTime }

end Server

/-! ## Concrete states used to instantiate the theorems -/

namespace Server

/-- A server whose directory is `fs`, with no history: no watermark, nothing sent; its
file system records every time as requested. -/
def fresh (fs : Dict DiskFile) : State :=
  { store := some fs, cwd := [], userLastAccess := [], clock := fun n => 100 + n, tick := 0,
    fsTime := fun n => n, sent := [], log := [] }

/-- A server holding `a.txt` (modified at 5) and `b.txt` (modified at 9), which last
reconciled with peer `P` at time 4. -/
def sample : State :=
  { store := some [("a.txt", { content := [104, 105], modTime := 5 }),
                   ("b.txt", { content := [98], modTime := 9 })],
    cwd := [], userLastAccess := [("P", 4)], clock := fun n => 100 + n, tick := 0,
    fsTime := fun n => n, sent := [], log := [] }

/-- A `SYNC` envelope from peer `P`, sent at time 7, advertising the given inventory. -/
def syncFrom (files : List FileInfo) : Message :=
  { Kind := "SYNC", Files := files, IP := "P", When := 7 }

end Server

namespace Client

/-- A client whose directory is `fs`, which last synchronised at time `lastSync`. -/
def fresh (fs : Dict DiskFile) (lastSync : Time) : State :=
  { store := some fs, lastSync := lastSync, clock := fun n => 50 + n, tick := 0, sent := [],
    convstring := "", filelist := [] }

end Client

/-! ## Dictionaries -/

namespace Dict

theorem get_set_self {α : Type} (d : Dict α) (k : String) (v : α) :
    (d.set k v).get k = some v := by
  induction d with
  | nil => simp [set, get]
  | cons hd tl ih =>
    obtain ⟨m, w⟩ := hd
    by_cases h1 : k = m
    · simp [set, get, h1]
    · by_cases h2 : k < m
      · simp [set, get, h1, h2]
      · simp [set, get, h1, h2, ih]

theorem get_set_ne {α : Type} (d : Dict α) (k j : String) (v : α) (h : j ≠ k) :
    (d.set k v).get j = d.get j := by
  induction d with
  | nil => simp [set, get, h]
  | cons hd tl ih =>
    obtain ⟨m, w⟩ := hd
    by_cases h1 : k = m
    · subst h1
      simp [set, get, h]
    · by_cases h2 : k < m
      · simp [set, get, h1, h2, h]
      · simp [set, get, h1, h2, ih]

theorem set_set {α : Type} (d : Dict α) (k : String) (v w : α) :
    (d.set k v).set k w = d.set k w := by
  induction d with
  | nil => simp [set]
  | cons hd tl ih =>
    obtain ⟨m, u⟩ := hd
    by_cases h1 : k = m
    · simp [set, h1]
    · by_cases h2 : k < m
      · simp [set, h1, h2]
      · simp [set, h1, h2, ih]

theorem get_erase_self {α : Type} (d : Dict α) (k : String) : (d.erase k).get k = none := by
  induction d with
  | nil => simp [erase, get]
  | cons hd tl ih =>
    obtain ⟨m, w⟩ := hd
    by_cases h1 : k = m
    · simp [erase, h1]
      simpa [h1] using ih
    · simp [erase, get, h1, ih]

theorem get_erase_ne {α : Type} (d : Dict α) (k j : String) (h : j ≠ k) :
    (d.erase k).get j = d.get j := by
  induction d with
  | nil => simp [erase, get]
  | cons hd tl ih =>
    obtain ⟨m, w⟩ := hd
    by_cases h1 : k = m
    · subst h1
      simp [erase, get, h, ih]
    · simp [erase, get, h1, ih]

theorem erase_of_get_none {α : Type} (d : Dict α) (k : String) (h : d.get k = none) :
    d.erase k = d := by
  induction d with
  | nil => simp [erase]
  | cons hd tl ih =>
    obtain ⟨m, w⟩ := hd
    by_cases h1 : k = m
    · simp [get, h1] at h
    · simp [get, h1] at h
      simp [erase, h1, ih h]

theorem mem_set {α : Type} (d : Dict α) (k : String) (v : α) (x : String × α)
    (hx : x ∈ d.set k v) : x = (k, v) ∨ x ∈ d := by
  induction d with
  | nil => simpa [set] using hx
  | cons hd tl ih =>
    obtain ⟨m, w⟩ := hd
    by_cases h1 : k = m
    · simp only [set, h1, if_true, List.mem_cons] at hx
      rcases hx with hx | hx
      · exact Or.inl (by simpa [h1] using hx)
      · exact Or.inr (List.mem_cons_of_mem _ hx)
    · by_cases h2 : k < m
      · simp only [set, h1, h2, if_true, if_false, List.mem_cons] at hx
        rcases hx with hx | hx | hx
        · exact Or.inl hx
        · exact Or.inr (by simp [hx])
        · exact Or.inr (List.mem_cons_of_mem _ hx)
      · simp only [set, h1, h2, if_false, List.mem_cons] at hx
        rcases hx with hx | hx
        · exact Or.inr (by simp [hx])
        · rcases ih hx with h | h
          · exact Or.inl h
          · exact Or.inr (List.mem_cons_of_mem _ h)

theorem mem_erase {α : Type} (d : Dict α) (k : String) (x : String × α)
    (hx : x ∈ d.erase k) : x ∈ d := by
  induction d with
  | nil => simp [erase] at hx
  | cons hd tl ih =>
    obtain ⟨m, w⟩ := hd
    by_cases h1 : k = m
    · simp only [erase, h1, if_true] at hx
      exact List.mem_cons_of_mem _ (ih (by simpa [h1] using hx))
    · simp only [erase, h1, if_false, List.mem_cons] at hx
      rcases hx with hx | hx
      · simp [hx]
      · exact List.mem_cons_of_mem _ (ih hx)

/-- Writing keeps a directory in name order. -/
theorem set_sorted {α : Type} (d : Dict α) (k : String) (v : α) (h : d.Sorted) :
    (d.set k v).Sorted := by
  induction d with
  | nil => simp [set, Sorted]
  | cons hd tl ih =>
    obtain ⟨m, w⟩ := hd
    have hp := List.pairwise_cons.mp h
    by_cases h1 : k = m
    · subst h1
      simp only [set, if_true]
      exact List.pairwise_cons.mpr ⟨hp.1, hp.2⟩
    · by_cases h2 : k < m
      · simp only [set, h1, h2, if_true, if_false]
        refine List.pairwise_cons.mpr ⟨?_, h⟩
        intro x hx
        rcases List.mem_cons.mp hx with hx | hx
        · simpa [hx] using h2
        · exact lt_trans h2 (hp.1 x hx)
      · simp only [set, h1, h2, if_false]
        refine List.pairwise_cons.mpr ⟨?_, ih hp.2⟩
        intro x hx
        rcases mem_set tl k v x hx with hx | hx
        · have : m < k := lt_of_le_of_ne (not_lt.mp h2) (Ne.symm h1)
          simpa [hx] using this
        · exact hp.1 x hx

/-- Removing keeps a directory in name order. -/
theorem erase_sorted {α : Type} (d : Dict α) (k : String) (h : d.Sorted) :
    (d.erase k).Sorted := by
  induction d with
  | nil => simp [erase, Sorted]
  | cons hd tl ih =>
    obtain ⟨m, w⟩ := hd
    have hp := List.pairwise_cons.mp h
    by_cases h1 : k = m
    · simp only [erase, h1, if_true]
      simpa [h1] using ih hp.2
    · simp only [erase, h1, if_false]
      exact List.pairwise_cons.mpr ⟨fun x hx => hp.1 x (mem_erase tl k x hx), ih hp.2⟩

end Dict

/-! ## The server's reconciliation pass -/

namespace Server

theorem handleError_ok (action place : String) (s : State) :
    handleError false action place s = some s := by
  simp [handleError]

theorem handleError_print (err : Bool) (place : String) (s : State) :
    ∃ l, handleError err "PRINT" place s = some { s with log := l } := by
  cases err
  · exact ⟨s.log, by simp [handleError]⟩
  · exact ⟨s.log ++ ["something went wrong in " ++ place], by simp [handleError]⟩

@[simp] theorem sendMessage_fs (msg : Message) (s : State) : (sendMessage msg s).fs = s.fs :=
  rfl

@[simp] theorem sendMessage_userLastAccess (msg : Message) (s : State) :
    (sendMessage msg s).userLastAccess = s.userLastAccess :=
  rfl

@[simp] theorem sendMessage_store (msg : Message) (s : State) :
    (sendMessage msg s).store = s.store :=
  rfl

@[simp] theorem sendMessage_cwd (msg : Message) (s : State) : (sendMessage msg s).cwd = s.cwd :=
  rfl

@[simp] theorem sendMessage_clock (msg : Message) (s : State) :
    (sendMessage msg s).clock = s.clock :=
  rfl

@[simp] theorem sendMessage_tick (msg : Message) (s : State) :
    (sendMessage msg s).tick = s.tick :=
  rfl

@[simp] theorem sendMessage_log (msg : Message) (s : State) : (sendMessage msg s).log = s.log :=
  rfl

@[simp] theorem sendMessage_fsTime (msg : Message) (s : State) :
    (sendMessage msg s).fsTime = s.fsTime :=
  rfl

@[simp] theorem sendMessage_sent (msg : Message) (s : State) :
    (sendMessage msg s).sent = s.sent ++ [msg] :=
  rfl

theorem doesFileExist_eq (name : String) (s : State) :
    doesFileExist name s = (s.fs.get name).isSome := by
  unfold doesFileExist readFile
  cases s.fs.get name <;> simp

theorem readDir_files (store : Store) : (readDir store).1 = store.files := by
  cases store <;> rfl

theorem getAllFiles_eq (s : State) :
    ∃ l, getAllFiles s = some (s.fs.map (describe s.cwd), { s with log := l }) := by
  obtain ⟨l, hl⟩ := handleError_print (readDir s.store).2 "getAllFiles" s
  refine ⟨l, ?_⟩
  simp only [getAllFiles, hl, Option.map_some', readDir_files]
  rfl

theorem syncLoop_eq (ip : String) (files : List FileInfo) (newMessage : Message) (s : State) :
    syncLoop ip files newMessage s =
      some { s with sent := s.sent ++ loopTrace s.fs s.userLastAccess ip files newMessage } := by
  induction files generalizing newMessage s with
  | nil => simp [syncLoop, loopTrace]
  | cons value rest ih =>
    unfold syncLoop
    rw [doesFileExist_eq]
    cases hget : s.fs.get value.FileName with
    | none =>
      cases hwm : s.userLastAccess.get ip with
      | none => simp [ih, loopTrace, stepMessage, hget, hwm]
      | some access =>
        by_cases hlt : access < value.Timestamp <;>
          simp [ih, loopTrace, stepMessage, hget, hwm, hlt]
    | some f =>
      by_cases h1 : value.Timestamp < f.modTime
      · simp [serverLastChanged, osStat, hget, handleError_ok, h1, getFile, readFile, ih,
          loopTrace, stepMessage]
      · by_cases h2 : value.Timestamp = f.modTime
        · simp [serverLastChanged, osStat, hget, handleError_ok, h1, h2, ih,
            loopTrace, stepMessage]
        · have h3 : f.modTime < value.Timestamp := lt_of_le_of_ne (not_lt.mp h1) (Ne.symm h2)
          simp [serverLastChanged, osStat, hget, handleError_ok, h1, h2, h3, ih,
            loopTrace, stepMessage]

theorem syncFiles_eq (msg : Message) (s : State) :
    ∃ l, syncFiles msg s =
      some { s with
        sent := s.sent ++ (loopTrace s.fs s.userLastAccess msg.IP msg.Files {} ++
          [createMessage "SYNC" "" (s.fs.map (describe s.cwd)) {}]),
        userLastAccess := s.userLastAccess.set msg.IP msg.When,
        log := l } := by
  obtain ⟨l1, h1⟩ := getAllFiles_eq
    { s with sent := s.sent ++ loopTrace s.fs s.userLastAccess msg.IP msg.Files {} }
  obtain ⟨l2, h2⟩ := getAllFiles_eq
    { s with sent := s.sent ++ loopTrace s.fs s.userLastAccess msg.IP msg.Files {},
             log := l1 }
  refine ⟨l2, ?_⟩
  simp only [syncFiles, syncLoop_eq, h1, h2]
  simp [sendMessage, State.fs]

theorem loopTrace_length (fs : Dict DiskFile) (wm : Dict Time) (ip : String)
    (files : List FileInfo) (prev : Message) :
    (loopTrace fs wm ip files prev).length = files.length := by
  induction files generalizing prev with
  | nil => simp [loopTrace]
  | cons value rest ih => simp [loopTrace, ih]

theorem loopTrace_getElem? (fs : Dict DiskFile) (wm : Dict Time) (ip : String)
    (files : List FileInfo) (prev : Message) (i : Nat) (value : FileInfo) (m : Message)
    (hv : files[i]? = some value) (hm : ∀ p, stepMessage fs wm ip value p = m) :
    (loopTrace fs wm ip files prev)[i]? = some m := by
  induction files generalizing prev i with
  | nil => simp at hv
  | cons hd rest ih =>
    cases i with
    | zero =>
      simp at hv
      subst hv
      simp [loopTrace, hm]
    | succ j =>
      simp at hv
      simp [loopTrace, ih _ j hv]

end Server

/-! ## Decisions of the server's reconciliation pass -/

namespace Server

/-- C1: for an advertised entry whose name exists in the server store, `syncFiles`
returns, writes one envelope per entry followed by one more, and the envelope written
for that entry is a `STORE` carrying the name and the store's content when the store's
modification time is strictly later than the advertised one, and a `GETFILE` carrying
the name when it is strictly earlier. -/
theorem syncFiles_existing_entry (s : State) (msg : Message) (i : Nat) (value : FileInfo)
    (f : DiskFile) (hv : msg.Files[i]? = some value)
    (hf : s.fs.get value.FileName = some f) :
    ∃ s1 out, syncFiles msg s = some s1 ∧ s1.sent = s.sent ++ out ∧
      out.length = msg.Files.length + 1 ∧
      (value.Timestamp < f.modTime →
        out[i]? = some { Kind := "STORE",
                         File := { FileName := value.FileName, File := f.content } }) ∧
      (f.modTime < value.Timestamp →
        out[i]? = some { Kind := "GETFILE", File := { FileName := value.FileName } }) := by
  have hi : i < msg.Files.length := (List.getElem?_eq_some.mp hv).1
  have hlen := loopTrace_length s.fs s.userLastAccess msg.IP msg.Files {}
  obtain ⟨l, hl⟩ := syncFiles_eq msg s
  refine ⟨_, _, hl, rfl, by simp [hlen], ?_, ?_⟩
  · intro hlt
    rw [List.getElem?_append_left (by rw [hlen]; exact hi)]
    apply loopTrace_getElem? _ _ _ _ _ _ value _ hv
    intro p
    simp [stepMessage, hf, hlt, createMessage]
  · intro hlt
    rw [List.getElem?_append_left (by rw [hlen]; exact hi)]
    apply loopTrace_getElem? _ _ _ _ _ _ value _ hv
    intro p
    simp [stepMessage, hf, hlt, not_lt_of_gt hlt, createMessage]

/-- Instance of C1: `sample` holds `b.txt` modified at 9 and is told of a copy modified
at 3, so the envelope it writes for that entry is a `STORE` with its own content. -/
theorem syncFiles_existing_entry_witness :
    ∃ s1 out, syncFiles (syncFrom [{ FileName := "b.txt", Timestamp := 3 }]) sample = some s1 ∧
      s1.sent = sample.sent ++ out ∧ out.length = 2 ∧
      out[0]? = some { Kind := "STORE", File := { FileName := "b.txt", File := [98] } } := by
  obtain ⟨s1, out, h1, h2, h3, h4, _⟩ :=
    syncFiles_existing_entry sample (syncFrom [{ FileName := "b.txt", Timestamp := 3 }]) 0
      { FileName := "b.txt", Timestamp := 3 } { content := [98], modTime := 9 }
      (by decide) (by decide)
  exact ⟨s1, out, h1, h2, h3, h4 (by decide)⟩

/-- C3: for an advertised entry whose name is not in the server store, the envelope
written for that entry is a `GETFILE` for the name exactly when the watermark map has no
entry for `msg.IP` or that watermark is strictly before the entry's timestamp, and it is
a `DELETE` for the name in every other case. -/
theorem syncFiles_absent_entry (s : State) (msg : Message) (i : Nat) (value : FileInfo)
    (hv : msg.Files[i]? = some value) (hf : s.fs.get value.FileName = none) :
    ∃ s1 out m, syncFiles msg s = some s1 ∧ s1.sent = s.sent ++ out ∧ out[i]? = some m ∧
      (m = { Kind := "GETFILE", File := { FileName := value.FileName } } ↔
        (s.userLastAccess.get msg.IP = none ∨
          ∃ access, s.userLastAccess.get msg.IP = some access ∧ access < value.Timestamp)) ∧
      (¬ (s.userLastAccess.get msg.IP = none ∨
          ∃ access, s.userLastAccess.get msg.IP = some access ∧ access < value.Timestamp) →
        m = { Kind := "DELETE", File := { FileName := value.FileName } }) := by
  have hi : i < msg.Files.length := (List.getElem?_eq_some.mp hv).1
  have hlen := loopTrace_length s.fs s.userLastAccess msg.IP msg.Files {}
  have hstep : ∀ p q, stepMessage s.fs s.userLastAccess msg.IP value p =
      stepMessage s.fs s.userLastAccess msg.IP value q := by
    intro p q
    simp [stepMessage, hf]
  obtain ⟨l, hl⟩ := syncFiles_eq msg s
  refine ⟨_, _, stepMessage s.fs s.userLastAccess msg.IP value {}, hl, rfl, ?_, ?_, ?_⟩
  · rw [List.getElem?_append_left (by rw [hlen]; exact hi)]
    exact loopTrace_getElem? _ _ _ _ _ _ value _ hv (fun p => hstep p {})
  · cases hwm : s.userLastAccess.get msg.IP with
    | none => simp [stepMessage, hf, hwm, createMessage]
    | some access =>
      by_cases hlt : access < value.Timestamp <;>
        simp [stepMessage, hf, hwm, hlt, createMessage]
  · cases hwm : s.userLastAccess.get msg.IP with
    | none => simp
    | some access =>
      by_cases hlt : access < value.Timestamp <;>
        simp [stepMessage, hf, hwm, hlt, createMessage]

/-- Instance of C3: `sample` has no `c.txt` and last reconciled with `P` at 4; a copy
advertised with timestamp 2 is answered by a `DELETE`. -/
theorem syncFiles_absent_entry_witness :
    ∃ s1 out, syncFiles (syncFrom [{ FileName := "c.txt", Timestamp := 2 }]) sample = some s1 ∧
      s1.sent = sample.sent ++ out ∧
      out[0]? = some { Kind := "DELETE", File := { FileName := "c.txt" } } := by
  obtain ⟨s1, out, m, h1, h2, h3, _, h5⟩ :=
    syncFiles_absent_entry sample (syncFrom [{ FileName := "c.txt", Timestamp := 2 }]) 0
      { FileName := "c.txt", Timestamp := 2 } (by decide) (by decide)
  have hm : m = { Kind := "DELETE", File := { FileName := "c.txt" } } := by
    apply h5
    simp [sample, syncFrom, Dict.get]
  exact ⟨s1, out, h1, h2, hm ▸ h3⟩

end Server

/-! ## Counter-sync, watermark and store operations of the server -/

namespace Server

/-- C6: from any state `syncFiles` returns; the last envelope written is a `SYNC` whose
`Files` has one descriptor per file of the store (its name, size and modification time,
in directory order); afterwards the watermark of `msg.IP` is `msg.When` and every other
watermark is as before; the store is untouched; the decision for an entry absent from
the store is taken with the watermark from before the call.  With an empty store and no
watermark for the peer, one advertised file yields exactly a `GETFILE` for it followed by
a `SYNC` with an empty inventory. -/
theorem syncFiles_counter_sync (s : State) (msg : Message) :
    ∃ s1 out files, syncFiles msg s = some s1 ∧ s1.sent = s.sent ++ out ∧
      out.getLast? = some { Kind := "SYNC", Files := files } ∧
      files.length = s.fs.length ∧
      (∀ (j : Nat) (name : String) (f : DiskFile), s.fs[j]? = some (name, f) →
        ∃ d : FileInfo, files[j]? = some d ∧ d.FileName = name ∧
          d.Filesize = (f.content.length : Int) ∧ d.Timestamp = f.modTime) ∧
      s1.userLastAccess.get msg.IP = some msg.When ∧
      (∀ ip, ip ≠ msg.IP → s1.userLastAccess.get ip = s.userLastAccess.get ip) ∧
      s1.fs = s.fs ∧
      (∀ (i : Nat) (value : FileInfo), msg.Files[i]? = some value →
        s.fs.get value.FileName = none →
        out[i]? = some
          (match s.userLastAccess.get msg.IP with
           | none => ({ Kind := "GETFILE", File := { FileName := value.FileName } } : Message)
           | some access =>
             if access < value.Timestamp then
               { Kind := "GETFILE", File := { FileName := value.FileName } }
             else { Kind := "DELETE", File := { FileName := value.FileName } })) ∧
      (s.fs = [] → s.userLastAccess.get msg.IP = none →
        ∀ value : FileInfo, msg.Files = [value] →
        out = [{ Kind := "GETFILE", File := { FileName := value.FileName } },
               { Kind := "SYNC", Files := [] }]) := by
  have hlen := loopTrace_length s.fs s.userLastAccess msg.IP msg.Files {}
  obtain ⟨l, hl⟩ := syncFiles_eq msg s
  refine ⟨_, _, s.fs.map (describe s.cwd), hl, rfl, ?_, by simp, ?_,
    Dict.get_set_self _ _ _, fun ip hip => Dict.get_set_ne _ _ _ _ hip, rfl, ?_, ?_⟩
  · simp [createMessage]
  · intro j name f hj
    refine ⟨describe s.cwd (name, f), ?_, rfl, rfl, rfl⟩
    simp [List.getElem?_map, hj]
  · intro i value hv hf
    have hi : i < msg.Files.length := (List.getElem?_eq_some.mp hv).1
    rw [List.getElem?_append_left (by rw [hlen]; exact hi)]
    apply loopTrace_getElem? _ _ _ _ _ _ value _ hv
    intro p
    simp only [stepMessage, hf, createMessage]
  · intro hfs hwm value hfiles
    simp [hfiles, hfs, loopTrace, stepMessage, Dict.get, hwm, createMessage]

/-- Instance of C6, Scenario A: an empty server with no watermark for `P` is told of
`a.txt` in a `SYNC` sent at 7: it writes a `GETFILE` for `a.txt`, then a `SYNC` with an
empty inventory, and records 7 as the watermark of `P`. -/
theorem syncFiles_counter_sync_witness :
    ∃ s1, syncFiles (syncFrom [{ FileName := "a.txt", Timestamp := 3 }]) (fresh []) = some s1 ∧
      s1.sent = [{ Kind := "GETFILE", File := { FileName := "a.txt" } },
                 { Kind := "SYNC", Files := [] }] ∧
      s1.userLastAccess.get "P" = some 7 := by
  obtain ⟨s1, out, files, h1, h2, _, _, _, h6, _, _, _, h10⟩ :=
    syncFiles_counter_sync (fresh []) (syncFrom [{ FileName := "a.txt", Timestamp := 3 }])
  have hout := h10 rfl rfl { FileName := "a.txt", Timestamp := 3 } rfl
  refine ⟨s1, h1, ?_, h6⟩
  rw [h2, hout]
  rfl

theorem unixNano_inRange (t : Int) (hlo : -2 ^ 63 ≤ t - unixEpoch)
    (hhi : t - unixEpoch < 2 ^ 63) : unixEpoch + unixNano t = t := by
  unfold unixNano
  have h : (t - unixEpoch + 2 ^ 63) % 2 ^ 64 = t - unixEpoch + 2 ^ 63 := by
    apply Int.emod_eq_of_lt <;> omega
  omega

theorem plainName_not_root (name : String) (h : plainName name = true) :
    denotesRoot name = false := by
  obtain ⟨data⟩ := name
  cases data with
  | nil => simp [plainName] at h
  | cons c cs =>
    simp only [plainName, String.toList, List.all_cons, Bool.and_eq_true, bne_iff_ne] at h
    simp only [denotesRoot, String.toList, List.all_cons, Bool.and_eq_false_iff, beq_eq_false_iff_ne]
    exact Or.inl h.1.2.1.1

/-- C5 fails as stated, on a server with an empty store whose clock reads 100 and whose
file system records every time as requested.  A descriptor with the zero `Timestamp`
(what the client's `STORE` command sends) is read back with the time of the write, 100.
A descriptor whose `Timestamp` is `2 ^ 64 + 10 ^ 18` nanoseconds after the Unix epoch
(year 2586) is read back `10 ^ 18` nanoseconds after it (year 2001).  A descriptor named
`sub/a.txt` is not written: an error is printed and `getFile` panics.  After the store
directory itself has been removed nothing is written either. -/
theorem storeFile_getFile_not_kept :
    ((storeFile { FileName := "a.txt", File := [1, 2, 3] } (fresh [])).bind
        fun s1 => (getFile "a.txt" s1).map fun r => r.1) =
      some { FileName := "a.txt", Filesize := 3, File := [1, 2, 3], Timestamp := 100 } ∧
    ((storeFile
          { FileName := "a.txt", File := [1, 2, 3], Timestamp := unixEpoch + 2 ^ 64 + 10 ^ 18 }
        (fresh [])).bind fun s1 => (getFile "a.txt" s1).map fun r => r.1) =
      some { FileName := "a.txt", Filesize := 3, File := [1, 2, 3],
             Timestamp := unixEpoch + 10 ^ 18 } ∧
    (storeFile { FileName := "sub/a.txt", File := [1, 2, 3], Timestamp := unixEpoch + 10 ^ 18 }
        (fresh [])).map (fun s1 => (s1.log, s1.fs, (getFile "sub/a.txt" s1).isSome)) =
      some (["something went wrong in storeFile sub/a.txt"], [], false) ∧
    ((deleteFile "" (fresh [])).bind
        (storeFile
          { FileName := "a.txt", File := [1, 2, 3], Timestamp := unixEpoch + 10 ^ 18 })).map
        (fun s1 => (s1.log, s1.fs, (getFile "a.txt" s1).isSome)) =
      some (["something went wrong in storeFile a.txt"], [], false) := by
  refine ⟨?_, ?_, ?_, ?_⟩ <;> decide

/-- C5 as amended: in a state whose store directory exists, for a descriptor whose name
is a plain file name and whose `Timestamp` is not the zero time, lies within the `int64`
range of nanoseconds around the Unix epoch and is recorded unchanged by the store's
file system, `storeFile d` followed by `getFile d.FileName` both return, and the
descriptor read back has the bytes of `d.File`, the timestamp `d.Timestamp` (not the
clock reading of the write) and a size equal to the length of `d.File`, whether or not
the name was in the store. -/
theorem storeFile_getFile_kept (d : FileInfo) (s : State) (hstore : s.store ≠ none)
    (hname : plainName d.FileName = true) (hzero : d.Timestamp ≠ 0)
    (hlo : -2 ^ 63 ≤ d.Timestamp - unixEpoch) (hhi : d.Timestamp - unixEpoch < 2 ^ 63)
    (hrec : s.fsTime (d.Timestamp - unixEpoch) = d.Timestamp - unixEpoch) :
    ∃ s1 s2 r, storeFile d s = some s1 ∧ getFile d.FileName s1 = some (r, s2) ∧
      r.File = d.File ∧ r.Timestamp = d.Timestamp ∧ r.Filesize = (d.File.length : Int) ∧
      r.FileName = d.FileName := by
  have hnano : unixNano d.Timestamp = d.Timestamp - unixEpoch := by
    have := unixNano_inRange d.Timestamp hlo hhi
    omega
  have hback : unixEpoch + s.fsTime (unixNano d.Timestamp) = d.Timestamp := by
    rw [hnano, hrec]
    omega
  cases hs : s.store with
  | none => exact absurd hs hstore
  | some dir =>
    refine ⟨{ s with store := some (dir.set d.FileName
                { content := d.File, modTime := d.Timestamp }), tick := s.tick + 1 },
      { s with store := some (dir.set d.FileName
                { content := d.File, modTime := d.Timestamp }), tick := s.tick + 1 },
      { File := d.File, FileName := d.FileName, Filesize := (d.File.length : Int),
        Timestamp := d.Timestamp }, ?_, ?_, rfl, rfl, rfl, rfl⟩
    · simp [storeFile, writeFile, osChtimes, hs, hname, hzero, Dict.get_set_self,
        Dict.set_set, handleError_ok, hback]
    · simp only [getFile, readFile, osStat, State.fs, Store.files, Dict.get_set_self,
        handleError_ok, Option.map_some']

/-- Instance of C5 as amended: `sample` stores `a.txt` with a timestamp `10 ^ 18`
nanoseconds after the Unix epoch and reads it back. -/
theorem storeFile_getFile_kept_witness :
    ∃ s1 s2 r,
      storeFile { FileName := "a.txt", File := [7], Timestamp := unixEpoch + 10 ^ 18 } sample =
        some s1 ∧
      getFile "a.txt" s1 = some (r, s2) ∧
      r.File = [7] ∧ r.Timestamp = unixEpoch + 10 ^ 18 ∧ r.Filesize = 1 ∧ r.FileName = "a.txt" :=
  storeFile_getFile_kept { FileName := "a.txt", File := [7], Timestamp := unixEpoch + 10 ^ 18 }
    sample (by decide) (by decide) (by decide) (by decide) (by decide) (by decide)

/-- The round trip of a timestamp depends on the file system recording it: on a file
system that records no time before `-2 ^ 31` seconds from the Unix epoch (December
1901), a timestamp `-3 * 10 ^ 18` nanoseconds from the epoch (year 1874) is read back
as that bound. -/
theorem storeFile_getFile_clamped :
    ((storeFile { FileName := "a.txt", File := [1], Timestamp := unixEpoch - 3 * 10 ^ 18 }
        { fresh [] with fsTime := fun n => max n (-2 ^ 31 * 10 ^ 9) }).bind
        fun s1 => (getFile "a.txt" s1).map fun r => r.1.Timestamp) =
      some (unixEpoch - 2 ^ 31 * 10 ^ 9) := by
  decide

/-- C10 fails as stated: the empty name is not in the store of a server with an empty
store, yet `deleteFile ""` (and handling a `DELETE` envelope for it) prints nothing and
removes the store directory itself, after which a `STORE` of `a.txt` fails. -/
theorem deleteFile_empty_name_removes_store :
    (fresh []).fs.get "" = none ∧
    (deleteFile "" (fresh [])).map (fun s1 => (s1.store, s1.log)) = some (none, []) ∧
    (handle { Kind := "DELETE", File := { FileName := "" } } (fresh [])).map
        (fun s1 => (s1.store, s1.log)) = some (none, []) ∧
    (manageConnections
        [{ Kind := "DELETE", File := { FileName := "" } },
         { Kind := "STORE",
           File := { FileName := "a.txt", File := [1, 2, 3],
                     Timestamp := unixEpoch + 10 ^ 18 } }]
        (fresh [])).map (fun s2 => (s2.store, s2.log)) =
      some (none, ["something went wrong in storeFile a.txt"]) := by
  refine ⟨?_, ?_, ?_, ?_⟩ <;> decide

/-- C10 as amended: for a plain file name that is not in the store, `deleteFile` returns,
leaves the store directory as it was and prints one line, and a connection that receives
a `DELETE` envelope for that name goes on with the envelopes after it; `handleError`
with action `PRINT` never panics; for a name that is in the store, `deleteFile` returns,
the name is gone and every other name maps to the same file as before. -/
theorem deleteFile_plain_recoverable (s : State) (name : String) :
    (plainName name = true → s.fs.get name = none →
      ∃ s1, deleteFile name s = some s1 ∧ s1.store = s.store ∧
        s1.log = s.log ++ ["something went wrong in " ++ ("deleteFile " ++ name)] ∧
        s1.userLastAccess = s.userLastAccess ∧ s1.sent = s.sent ∧
        ∀ msg rest, msg.Kind = "DELETE" → msg.File.FileName = name →
          handle msg s = some s1 ∧ manageConnections (msg :: rest) s = manageConnections rest s1) ∧
    (∀ err place t, handleError err "PRINT" place t ≠ none) ∧
    (∀ f, s.fs.get name = some f →
      ∃ s1, deleteFile name s = some s1 ∧ s1.fs.get name = none ∧
        ∀ other, other ≠ name → s1.fs.get other = s.fs.get other) := by
  refine ⟨?_, ?_, ?_⟩
  · intro hplain h
    have hroot := plainName_not_root name hplain
    have hd : deleteFile name s =
        some { s with log := s.log ++ ["something went wrong in " ++ ("deleteFile " ++ name)] } := by
      cases hs : s.store with
      | none => simp [deleteFile, osRemove, hs, handleError]
      | some dir =>
        have hget : dir.get name = none := by simpa [State.fs, Store.files, hs] using h
        simp [deleteFile, osRemove, hs, hget, hroot, handleError]
    refine ⟨_, hd, rfl, rfl, rfl, rfl, ?_⟩
    intro msg rest hk hn
    have hh : handle msg s = deleteFile name s := by
      simp [handle, hk, hn]
    simp [manageConnections, hh, hd]
  · intro err place t
    cases err <;> simp [handleError]
  · intro f h
    cases hs : s.store with
    | none => simp [State.fs, Store.files, hs, Dict.get] at h
    | some dir =>
      have hget : dir.get name = some f := by simpa [State.fs, Store.files, hs] using h
      refine ⟨{ s with store := some (dir.erase name) }, ?_, ?_, ?_⟩
      · simp [deleteFile, osRemove, hs, hget, handleError]
      · simp [State.fs, Store.files, Dict.get_erase_self]
      · intro other ho
        simp [State.fs, Store.files, hs, Dict.get_erase_ne _ _ _ ho]

/-- Instance of C10 as amended: deleting `c.txt`, which `sample` does not hold, changes
nothing in the store; deleting `a.txt`, which it holds, removes it and keeps `b.txt`. -/
theorem deleteFile_plain_recoverable_witness :
    (∃ s1, deleteFile "c.txt" sample = some s1 ∧ s1.store = sample.store) ∧
    (∃ s1, deleteFile "a.txt" sample = some s1 ∧ s1.fs.get "a.txt" = none ∧
      s1.fs.get "b.txt" = some { content := [98], modTime := 9 }) := by
  constructor
  · obtain ⟨s1, h1, h2, _⟩ :=
      (deleteFile_plain_recoverable sample "c.txt").1 (by decide) (by decide)
    exact ⟨s1, h1, h2⟩
  · obtain ⟨s1, h1, h2, h3⟩ :=
      (deleteFile_plain_recoverable sample "a.txt").2.2 { content := [104, 105], modTime := 5 }
        (by decide)
    exact ⟨s1, h1, h2, (h3 "b.txt" (by decide)).trans (by decide)⟩

end Server

/-! ## Where the server departs from the reconciliation table -/

namespace Server

theorem loopTrace_unchanged (fs : Dict DiskFile) (wm : Dict Time) (ip : String)
    (files : List FileInfo) (prev : Message)
    (h : ∀ value ∈ files, ∀ p, stepMessage fs wm ip value p = p) :
    ∀ m ∈ loopTrace fs wm ip files prev, m = prev := by
  induction files generalizing prev with
  | nil => simp [loopTrace]
  | cons hd rest ih =>
    intro m hm
    have hhd : stepMessage fs wm ip hd prev = prev := h hd (by simp) prev
    simp only [loopTrace, hhd, List.mem_cons] at hm
    rcases hm with hm | hm
    · exact hm
    · exact ih prev (fun value hvalue p => h value (by simp [hvalue]) p) m hm

/-- C2 on a concrete store: `sample` holds `a.txt` modified at 5 and `b.txt` modified at
9.  Told of `a.txt` with timestamp 5 alone, it writes an envelope with an empty kind for
that entry; told of `b.txt` with timestamp 3 and then `a.txt` with timestamp 5, it writes
the `STORE` of `b.txt` a second time for the entry `a.txt`. -/
theorem syncFiles_equal_timestamp_sends :
    (syncFiles (syncFrom [{ FileName := "a.txt", Timestamp := 5 }]) sample).map (fun s1 => s1.sent) =
      some [{ Kind := "" },
            { Kind := "SYNC",
              Files := [{ FileName := "a.txt", Filesize := 2, Timestamp := 5 },
                        { FileName := "b.txt", Filesize := 1, Timestamp := 9 }] }] ∧
    (syncFiles (syncFrom [{ FileName := "b.txt", Timestamp := 3 },
                          { FileName := "a.txt", Timestamp := 5 }]) sample).map
        (fun s1 => s1.sent) =
      some [{ Kind := "STORE", File := { FileName := "b.txt", File := [98] } },
            { Kind := "STORE", File := { FileName := "b.txt", File := [98] } },
            { Kind := "SYNC",
              Files := [{ FileName := "a.txt", Filesize := 2, Timestamp := 5 },
                        { FileName := "b.txt", Filesize := 1, Timestamp := 9 }] }] := by
  constructor <;> rfl

/-- C9 on a concrete store: on a server with an empty store, `getFile "a.txt"` panics,
handling a `GETFILE` envelope for `a.txt` panics, and a connection that receives that
envelope followed by a `LIST` never handles the `LIST`. -/
theorem getFile_absent_panics :
    getFile "a.txt" (fresh []) = none ∧
    handle { Kind := "GETFILE", File := { FileName := "a.txt" } } (fresh []) = none ∧
    manageConnections [{ Kind := "GETFILE", File := { FileName := "a.txt" } }, { Kind := "LIST" }]
      (fresh []) = none := by
  refine ⟨rfl, rfl, rfl⟩

/-- C7 fails as stated: `sample` holds `b.txt` modified at 9; told twice that the peer's
copy has timestamp 3, it writes the same `STORE` in the second run as in the first. -/
theorem syncFiles_second_run_sends :
    ((syncFiles (syncFrom [{ FileName := "b.txt", Timestamp := 3 }]) sample).bind
        (syncFiles (syncFrom [{ FileName := "b.txt", Timestamp := 3 }]))).map
        (fun s2 => s2.sent) =
      some [{ Kind := "STORE", File := { FileName := "b.txt", File := [98] } },
            { Kind := "SYNC",
              Files := [{ FileName := "a.txt", Filesize := 2, Timestamp := 5 },
                        { FileName := "b.txt", Filesize := 1, Timestamp := 9 }] },
            { Kind := "STORE", File := { FileName := "b.txt", File := [98] } },
            { Kind := "SYNC",
              Files := [{ FileName := "a.txt", Filesize := 2, Timestamp := 5 },
                        { FileName := "b.txt", Filesize := 1, Timestamp := 9 }] }] := by
  rfl

/-- C7 as amended: running `syncFiles` twice on the same message returns both times and
leaves the store as it was; the second run leaves the watermark map as the first run
left it, and a third run writes what the second wrote.  In the second run an entry whose
name is in the store with a different modification time gets the envelope it got in the
first run, and an entry whose name is not in the store gets a `GETFILE` if `msg.When` is
strictly before its timestamp and a `DELETE` otherwise.  If every advertised entry is in
the store with a modification time equal to its timestamp, the second run writes no
`STORE`, `GETFILE` or `DELETE`. -/
theorem syncFiles_twice (s : State) (msg : Message) :
    ∃ s1 s2 s3 out1 out2, syncFiles msg s = some s1 ∧ syncFiles msg s1 = some s2 ∧
      syncFiles msg s2 = some s3 ∧
      s1.sent = s.sent ++ out1 ∧ s2.sent = s1.sent ++ out2 ∧ s3.sent = s2.sent ++ out2 ∧
      s1.fs = s.fs ∧ s2.fs = s.fs ∧ s2.userLastAccess = s1.userLastAccess ∧
      (∀ (i : Nat) (value : FileInfo) (f : DiskFile), msg.Files[i]? = some value →
        s.fs.get value.FileName = some f → f.modTime ≠ value.Timestamp →
        out2[i]? = out1[i]? ∧ ∃ m : Message, out2[i]? = some m ∧
          (m.Kind = "STORE" ∨ m.Kind = "GETFILE") ∧ m.File.FileName = value.FileName) ∧
      (∀ (i : Nat) (value : FileInfo), msg.Files[i]? = some value →
        s.fs.get value.FileName = none →
        out2[i]? = some
          (if msg.When < value.Timestamp then
            ({ Kind := "GETFILE", File := { FileName := value.FileName } } : Message)
           else { Kind := "DELETE", File := { FileName := value.FileName } })) ∧
      ((∀ value ∈ msg.Files, ∃ f : DiskFile,
          s.fs.get value.FileName = some f ∧ f.modTime = value.Timestamp) →
        ∀ m ∈ out2, m.Kind ≠ "STORE" ∧ m.Kind ≠ "GETFILE" ∧ m.Kind ≠ "DELETE") := by
  have hlen1 := loopTrace_length s.fs s.userLastAccess msg.IP msg.Files {}
  have hlen2 := loopTrace_length s.fs (s.userLastAccess.set msg.IP msg.When) msg.IP msg.Files {}
  obtain ⟨l1, h1⟩ := syncFiles_eq msg s
  obtain ⟨l2, h2⟩ := syncFiles_eq msg
    { s with
      sent := s.sent ++ (loopTrace s.fs s.userLastAccess msg.IP msg.Files {} ++
        [createMessage "SYNC" "" (s.fs.map (describe s.cwd)) {}]),
      userLastAccess := s.userLastAccess.set msg.IP msg.When,
      log := l1 }
  obtain ⟨l3, h3⟩ := syncFiles_eq msg
    { s with
      sent := s.sent ++ (loopTrace s.fs s.userLastAccess msg.IP msg.Files {} ++
          [createMessage "SYNC" "" (s.fs.map (describe s.cwd)) {}]) ++
        (loopTrace s.fs (s.userLastAccess.set msg.IP msg.When) msg.IP msg.Files {} ++
          [createMessage "SYNC" "" (s.fs.map (describe s.cwd)) {}]),
      userLastAccess := s.userLastAccess.set msg.IP msg.When,
      log := l2 }
  simp only [Dict.set_set] at h2 h3
  refine ⟨_, _, _, loopTrace s.fs s.userLastAccess msg.IP msg.Files {} ++
      [createMessage "SYNC" "" (s.fs.map (describe s.cwd)) {}],
    loopTrace s.fs (s.userLastAccess.set msg.IP msg.When) msg.IP msg.Files {} ++
      [createMessage "SYNC" "" (s.fs.map (describe s.cwd)) {}],
    h1, h2, h3, rfl, rfl, rfl, rfl, rfl, rfl, ?_, ?_, ?_⟩
  · intro i value f hv hf hne
    have hi : i < msg.Files.length := (List.getElem?_eq_some.mp hv).1
    have hstep : ∀ wm p, stepMessage s.fs wm msg.IP value p =
        stepMessage s.fs [] msg.IP value {} := by
      intro wm p
      by_cases h1 : value.Timestamp < f.modTime
      · simp [stepMessage, hf, h1]
      · have h2 : f.modTime < value.Timestamp := lt_of_le_of_ne (not_lt.mp h1) hne
        simp [stepMessage, hf, h1, h2]
    have e1 := loopTrace_getElem? s.fs s.userLastAccess msg.IP msg.Files {} i value _ hv
      (hstep s.userLastAccess)
    have e2 := loopTrace_getElem? s.fs (s.userLastAccess.set msg.IP msg.When) msg.IP msg.Files
      {} i value _ hv (hstep _)
    rw [List.getElem?_append_left (by rw [hlen2]; exact hi),
      List.getElem?_append_left (by rw [hlen1]; exact hi), e1, e2]
    refine ⟨rfl, _, rfl, ?_⟩
    by_cases h1 : value.Timestamp < f.modTime
    · simp [stepMessage, hf, h1, createMessage]
    · have h2 : f.modTime < value.Timestamp := lt_of_le_of_ne (not_lt.mp h1) hne
      simp [stepMessage, hf, h1, h2, createMessage]
  · intro i value hv hf
    have hi : i < msg.Files.length := (List.getElem?_eq_some.mp hv).1
    rw [List.getElem?_append_left (by rw [hlen2]; exact hi)]
    apply loopTrace_getElem? _ _ _ _ _ _ value _ hv
    intro p
    by_cases hlt : msg.When < value.Timestamp <;>
      simp [stepMessage, hf, Dict.get_set_self, hlt, createMessage]
  · intro hall m hm
    simp only [List.mem_append, List.mem_singleton] at hm
    rcases hm with hm | hm
    · have hsame : ∀ value ∈ msg.Files, ∀ p,
          stepMessage s.fs (s.userLastAccess.set msg.IP msg.When) msg.IP value p = p := by
        intro value hvalue p
        obtain ⟨f, hf, heq⟩ := hall value hvalue
        simp [stepMessage, hf, heq]
      have := loopTrace_unchanged _ _ _ _ _ hsame m hm
      subst this
      decide
    · subst hm
      simp [createMessage]

/-- Instance of C7 as amended: `sample` told twice of `b.txt` with timestamp 3 (its own
copy is modified at 9) keeps its store, and the second run answers the entry as the
first did. -/
theorem syncFiles_twice_witness :
    ∃ s1 s2 out1 out2,
      syncFiles (syncFrom [{ FileName := "b.txt", Timestamp := 3 }]) sample = some s1 ∧
      syncFiles (syncFrom [{ FileName := "b.txt", Timestamp := 3 }]) s1 = some s2 ∧
      s1.sent = sample.sent ++ out1 ∧ s2.sent = s1.sent ++ out2 ∧ s2.fs = sample.fs ∧
      out2[0]? = out1[0]? := by
  obtain ⟨s1, s2, _, out1, out2, h1, h2, _, h4, h5, _, _, h8, _, h10, _⟩ :=
    syncFiles_twice sample (syncFrom [{ FileName := "b.txt", Timestamp := 3 }])
  exact ⟨s1, s2, out1, out2, h1, h2, h4, h5, h8,
    (h10 0 { FileName := "b.txt", Timestamp := 3 } { content := [98], modTime := 9 }
      (by decide) (by decide) (by decide)).1⟩

end Server

/-! ## The client's side of the exchange -/

namespace Client

theorem client_doesFileExist_eq (name : String) (s : State) :
    doesFileExist name s = (s.fs.get name).isSome := by
  unfold doesFileExist readFile
  cases s.fs.get name <;> simp

theorem client_syncLoop_spec (files : List FileInfo) (s : State) :
    ∃ out, (syncLoop files s).sent = s.sent ++ out ∧ (syncLoop files s).fs = s.fs ∧
      (syncLoop files s).lastSync = s.lastSync ∧
      (syncLoop files s).convstring = s.convstring ∧
      out.map (fun m => (m.Kind, m.File, m.Files, m.IP)) =
        files.filterMap (fun value =>
          match s.fs.get value.FileName with
          | some _ => none
          | none =>
            if s.lastSync < value.Timestamp then
              some ("GETFILE", ({ FileName := value.FileName } : FileInfo), [], "")
            else some ("DELETE", { FileName := value.FileName }, [], "")) := by
  induction files generalizing s with
  | nil => exact ⟨[], by simp [syncLoop]⟩
  | cons value rest ih =>
    unfold syncLoop
    rw [client_doesFileExist_eq]
    cases hget : s.fs.get value.FileName with
    | some f =>
      obtain ⟨out, h1, h2, h3, h4, h5⟩ := ih s
      exact ⟨out, by simpa using h1, by simpa using h2, by simpa using h3, by simpa using h4,
        by simpa [List.filterMap_cons, hget] using h5⟩
    | none =>
      by_cases hlt : s.lastSync < value.Timestamp
      · obtain ⟨out, h1, h2, h3, h4, h5⟩ := ih
          (encode (createMessage "GETFILE" "" [] { FileName := value.FileName } (timeNow s).1)
            (timeNow s).2)
        refine ⟨createMessage "GETFILE" "" [] { FileName := value.FileName } (timeNow s).1 :: out,
          ?_, ?_, ?_, ?_, ?_⟩
        · simpa [hlt, encode, timeNow] using h1
        · simpa [hlt, encode, timeNow] using h2
        · simpa [hlt, encode, timeNow] using h3
        · simpa [hlt, encode, timeNow] using h4
        · simpa [hlt, encode, timeNow, List.filterMap_cons, hget, createMessage] using h5
      · obtain ⟨out, h1, h2, h3, h4, h5⟩ := ih
          (encode (createMessage "DELETE" "" [] { FileName := value.FileName } (timeNow s).1)
            (timeNow s).2)
        refine ⟨createMessage "DELETE" "" [] { FileName := value.FileName } (timeNow s).1 :: out,
          ?_, ?_, ?_, ?_, ?_⟩
        · simpa [hlt, encode, timeNow] using h1
        · simpa [hlt, encode, timeNow] using h2
        · simpa [hlt, encode, timeNow] using h3
        · simpa [hlt, encode, timeNow] using h4
        · simpa [hlt, encode, timeNow, List.filterMap_cons, hget, createMessage] using h5

theorem client_storeFile_modTime (fileName : String) (file : Bytes) (s : State)
    (dir : Dict DiskFile) (hstore : s.store = some dir) (hname : plainName fileName = true) :
    ∃ s1, storeFile fileName file s = some s1 ∧
      s1.fs.get fileName = some { content := file, modTime := s.clock s.tick } := by
  refine ⟨{ s with store := some (dir.set fileName { content := file, modTime := s.clock s.tick }),
                    tick := s.tick + 1 }, ?_, Dict.get_set_self _ _ _⟩
  simp [storeFile, writeFile, hstore, hname, handleError]

/-- C8: the client's `syncFiles` does not modify the client's store, and the envelopes it
writes are, in inventory order, nothing for an entry whose name is in the store, one
`GETFILE` for the name if it is absent and `lastSync` is strictly before the entry's
timestamp, and one `DELETE` for the name if it is absent and `lastSync` is at or after
the timestamp; nothing else is written. -/
theorem client_syncFiles_envelopes (msg : Message) (s : State) :
    ∃ out, (syncFiles msg s).sent = s.sent ++ out ∧ (syncFiles msg s).fs = s.fs ∧
      out.map (fun m => (m.Kind, m.File, m.Files, m.IP)) =
        msg.Files.filterMap (fun value =>
          match s.fs.get value.FileName with
          | some _ => none
          | none =>
            if s.lastSync < value.Timestamp then
              some ("GETFILE", ({ FileName := value.FileName } : FileInfo), [], "")
            else some ("DELETE", { FileName := value.FileName }, [], "")) := by
  obtain ⟨out, h1, h2, _, _, h5⟩ := client_syncLoop_spec msg.Files s
  exact ⟨out, by simpa [syncFiles, timeNow] using h1, by simpa [syncFiles, timeNow] using h2, h5⟩

/-- C4 on concrete stores, Scenario B: the server `sample` holds `a.txt` modified at 5 and
the client advertises `a.txt` with timestamp 3.  The `STORE` the server writes carries the
name and the content with a zero `Timestamp`, not 5.  The client, whose clock reads 50,
handles that envelope and ends with the content under `a.txt` modified at 50; it ends the
same way if the envelope carries the timestamp 5. -/
theorem scenarioB_timestamp_not_kept :
    (Server.syncFiles (Server.syncFrom [{ FileName := "a.txt", Timestamp := 3 }])
        Server.sample).map (fun s1 => s1.sent) =
      some [{ Kind := "STORE",
              File := { FileName := "a.txt", File := [104, 105], Timestamp := 0 } },
            { Kind := "SYNC",
              Files := [{ FileName := "a.txt", Filesize := 2, Timestamp := 5 },
                        { FileName := "b.txt", Filesize := 1, Timestamp := 9 }] }] ∧
    (receive [{ Kind := "STORE",
                File := { FileName := "a.txt", File := [104, 105], Timestamp := 0 } }]
        (fresh [("a.txt", { content := [111], modTime := 3 })] 0)).map
        (fun c => c.fs.get "a.txt") =
      some (some { content := [104, 105], modTime := 50 }) ∧
    (receive [{ Kind := "STORE",
                File := { FileName := "a.txt", File := [104, 105], Timestamp := 5 } }]
        (fresh [("a.txt", { content := [111], modTime := 3 })] 0)).map
        (fun c => c.fs.get "a.txt") =
      some (some { content := [104, 105], modTime := 50 }) := by
  refine ⟨rfl, rfl, rfl⟩

end Client

end LiftBall
